import Mathlib

/-!
# mirage_block_c.c: the C stubs between native callers and the OCaml block device

A shallow embedding of `src/mirage_block_c.c`.  Every exported operation
(`mirage_block_open`, `mirage_block_stat`, `mirage_block_close`,
`mirage_block_preadv`, `mirage_block_pwritev`, `mirage_block_flush`) is a pair of
C functions: a static `ocaml_FOO`, which runs with the runtime lock held and
reports through out-parameters, and the plain `FOO`, which takes the lock, calls
`ocaml_FOO`, drops the lock and turns the error flag into a return value and
`errno`.

The managed runtime is an oracle (`Runtime`): what a registered closure returns
for given arguments and managed state is arbitrary.  The native side is a
`World`: `errno`, the lock, the six static `fn` caches, the managed state and a
ghost trace of the events that touch the runtime.  C integers are mathematical
integers reduced to the width of their C type at each conversion.

Conventions of the model:
* the calling thread has been registered (`mirage_block_register_thread`);
* a callback touches the managed state only, never `errno`;
* `Field` of something that is not a tuple with that field is a stray load: it
  is logged and yields an indeterminate word, `none`; arithmetic on such a word
  (`Int_val`) is indeterminate too.  Dereferencing such a word as an address,
  which is what `Int64_val` does, has no defined behaviour: the stub ends
  `undefined` there, on the spot, with whatever it holds;
* an operation can end in four ways (`Outcome`): it returns, the process dies,
  the thread blocks on the lock it already holds, or the behaviour is
  undefined.  An entry point is invoked only if the caller does not already
  hold the lock and the name is registered, so the statements about what an
  entry point returns carry these two conditions.
-/

namespace MirageBlock

/-! ## Machine integers -/

/-- Conversion to an unsigned C integer type of `w` bits. -/
def toUnsigned (w : Nat) (x : Int) : Int := x % 2 ^ w

/-- Conversion to a signed two's-complement C integer type of `w` bits. -/
def toSigned (w : Nat) (x : Int) : Int :=
  if x % 2 ^ w < 2 ^ (w - 1) then x % 2 ^ w else x % 2 ^ w - 2 ^ w

/-- The errno value `EINVAL` of `<errno.h>`. -/
def EINVAL : Int := 22

/-- Modelled from the spec: the header `mirage_block_c.h`, which declares the
handle type, is not among the sources.  The spec calls a handle an opaque
integer identifier, and the stubs keep it in a C `int` (`int *out`,
`Val_int(h)`), so it is an integer here. -/
abbrev mirage_block_handle := Int

/-! ## OCaml values as the stubs see them

The macros and functions of this section belong to the OCaml runtime, not to
this repository; they follow `caml/mlvalues.h`, `caml/alloc.h`,
`caml/callback.h`, `caml/bigarray.h` and `caml/threads.h` for a 64-bit
machine. -/

/-- A closure of the managed runtime, as returned by `caml_named_value`. -/
abbrev Closure := Nat

/-- A first-order OCaml value: an immediate 63-bit integer (booleans are the
integers 0 and 1), a boxed `Int64`, a string, or a one-dimensional bigarray
over memory the runtime does not own (`flags`, data pointer, `dim[0]`). -/
inductive Cell where
  | int (n : Int)
  | int64 (n : Int)
  | string (s : String)
  | bigarray (flags : Nat) (data : Nat) (dim : Int)
  deriving DecidableEq, Repr

/-- What a `value` of the stubs can hold: a first-order value, a tuple of them,
or the encoded exception result of `caml_callbackN_exn` (low bits `10`). -/
inductive Value where
  | cell (c : Cell)
  | tuple (fields : List Cell)
  | exception_result (exn : Cell)
  deriving DecidableEq, Repr

/-- Runtime API `Val_int(x)` is `Val_long(x) = ((intnat)((uintnat)(x) << 1)) + 1`: the
shift drops the top bit, so the OCaml integer is `x` reduced to 63 bits. -/
def Val_int (x : Int) : Value := .cell (.int (toSigned 63 x))

/-- Runtime API `Val_bool(x)` is `Val_int((x) != 0)`. -/
def Val_bool (x : Int) : Value := Val_int (if x != 0 then 1 else 0)

/-- Runtime API `Is_exception_result(v)` is `((v) & 3) == 2`. -/
def Is_exception_result : Value → Bool
  | .exception_result _ => true
  | _ => false

/-- Runtime API `Field(x, i)` is `((value *)(x))[i]`.  Applied to anything but a tuple with
that field the load yields an indeterminate word, modelled as `none`. -/
def Field (x : Value) (i : Nat) : Option Value :=
  match x with
  | .tuple fields => (fields.get? i).map Value.cell
  | _ => none

/-- Runtime API `Int_val(x)` is `((int) Long_val(x))`: the 63-bit integer converted to a
32-bit C `int`.  Indeterminate on anything but an immediate integer. -/
def Int_val : Option Value → Option Int
  | some (.cell (.int n)) => some (toSigned 32 n)
  | _ => none

/-- Runtime API `Int64_val(v)` is `*((int64_t *) Data_custom_val(v))`: it takes
the word `v` for the address of a boxed `Int64` and loads from it.  On a boxed
`Int64` that is its content; on anything else, an indeterminate word included,
the load is through a wild address and has no defined behaviour (`none`). -/
def Int64_val : Option Value → Option Int
  | some (.cell (.int64 n)) => some (toSigned 64 n)
  | _ => none

/-- Runtime API `caml_copy_string(s)`: a fresh OCaml string with the bytes of `s`. -/
def caml_copy_string (s : String) : Value := .cell (.string s)

/-- Runtime API `Max_wosize`: the largest block the runtime can allocate, in words
(`(1 << 54) - 1` on a 64-bit machine). -/
def Max_wosize : Int := 18014398509481983

/-- Runtime API `CAML_BA_CHAR` of `caml/bigarray.h`. -/
def CAML_BA_CHAR : Nat := 12

/-- Runtime API `CAML_BA_C_LAYOUT` of `caml/bigarray.h`. -/
def CAML_BA_C_LAYOUT : Nat := 0

/-- Runtime API `Store_field(block, i, v)`. -/
def Store_field (block : Value) (i : Nat) (v : Cell) : Value :=
  match block with
  | .tuple fields => .tuple (fields.set i v)
  | other => other

/-! ## The native side -/

/-- The six entry points, one static `fn` cache each. -/
inductive EntryPoint where
  | ep_open | ep_stat | ep_close | ep_preadv | ep_pwritev | ep_flush
  deriving DecidableEq, Repr

/-- The name each stub hands to `OCAML_NAMED_FUNCTION`. -/
def EntryPoint.name : EntryPoint → String
  | .ep_open => "mirage_block_open"
  | .ep_stat => "mirage_block_stat"
  | .ep_close => "mirage_block_close"
  | .ep_preadv => "mirage_block_preadv"
  | .ep_pwritev => "mirage_block_pwritev"
  | .ep_flush => "mirage_block_flush"

/-- Ghost events: everything a stub does that touches the managed runtime. -/
inductive Event where
  | acquire
  | release
  | alloc (v : Value)
  | named_value (name : String)
  | callback (f : Closure) (args : List Value) (result : Value)
  | field (v : Value) (i : Nat)
  | int64_val (v : Option Value)
  deriving DecidableEq, Repr

/-- The managed runtime: which names are registered, what a closure returns (a
value or an encoded exception) and does to the managed state, and what the C
allocator behind the runtime answers to `malloc(size)` (the address 0 is
`NULL`). -/
structure Runtime (σ : Type) where
  caml_named_value : String → Option Closure
  caml_callback_exn : Closure → List Value → σ → Value × σ
  malloc : Nat → σ → Nat × σ

/-- The state of the calling thread and of the runtime it talks to. -/
structure World (σ : Type) where
  errno : Int
  lock_held : Bool
  fn : EntryPoint → Option Closure
  heap : σ
  trace : List Event

/-- Append one ghost event. -/
def World.log {σ : Type} (w : World σ) (e : Event) : World σ :=
  { w with trace := w.trace ++ [e] }

/-- How a C function ends: it returns, the process dies (`abort()` or a fatal
runtime error), the thread blocks for ever on the lock it already holds, or a
runtime result of the wrong shape was decoded (no defined behaviour). -/
inductive Outcome (σ : Type) (α : Type) where
  | returned (ret : α) (w : World σ)
  | fatal (w : World σ)
  | blocked (w : World σ)
  | undefined (w : World σ)

/-- Sequencing: continue only after a return. -/
def Outcome.bind {σ α β : Type} (o : Outcome σ α) (k : α → World σ → Outcome σ β) :
    Outcome σ β :=
  match o with
  | .returned a w => k a w
  | .fatal w => .fatal w
  | .blocked w => .blocked w
  | .undefined w => .undefined w

/-- Runtime API `caml_acquire_runtime_system()`: take the master lock; it is not
re-entrant. -/
def caml_acquire_runtime_system {σ : Type} (w : World σ) : Outcome σ Unit :=
  if w.lock_held then .blocked w
  else .returned () { w with lock_held := true, trace := w.trace ++ [Event.acquire] }

/-- Runtime API `caml_release_runtime_system()`. -/
def caml_release_runtime_system {σ : Type} (w : World σ) : World σ :=
  { w with lock_held := false, trace := w.trace ++ [Event.release] }

/-- The `OCAML_NAMED_FUNCTION(name)` block: use the cached `fn`, else look the
name up and cache it, and `abort()` when it is not registered. -/
def OCAML_NAMED_FUNCTION {σ : Type} (rt : Runtime σ) (ep : EntryPoint) (w : World σ) :
    Outcome σ Closure :=
  match w.fn ep with
  | some f => .returned f w
  | none =>
    match rt.caml_named_value ep.name with
    | some f =>
      .returned f { w with fn := Function.update w.fn ep (some f),
                           trace := w.trace ++ [Event.named_value ep.name] }
    | none => .fatal (w.log (Event.named_value ep.name))

/-- Runtime API `caml_callback_exn`, `caml_callback2_exn`, `caml_callback3_exn`:
apply the closure; the result is a value or an encoded exception. -/
def caml_callbackN_exn {σ : Type} (rt : Runtime σ) (f : Closure) (args : List Value)
    (w : World σ) : Value × World σ :=
  ((rt.caml_callback_exn f args w.heap).1,
   { w with heap := (rt.caml_callback_exn f args w.heap).2,
            trace := w.trace ++ [Event.callback f args (rt.caml_callback_exn f args w.heap).1] })

/-- Runtime API `caml_alloc_tuple(n)`: a tuple of `n` fields, each `Val_unit`; a
request above `Max_wosize` raises `Out_of_memory` with no handler installed,
which is fatal. -/
def caml_alloc_tuple {σ : Type} (n : Int) (w : World σ) : Outcome σ Value :=
  if n > Max_wosize then .fatal w
  else .returned (.tuple (List.replicate n.toNat (Cell.int 0)))
        (w.log (Event.alloc (.tuple (List.replicate n.toNat (Cell.int 0)))))

/-- Runtime API `CAML_BA_MANAGED` of `caml/bigarray.h`: the data belongs to the
runtime, which allocated it. -/
def CAML_BA_MANAGED : Nat := 512

/-- Runtime API `caml_ba_alloc_dims(flags, 1, data, dim0)`, for the element kind
`CAML_BA_CHAR` the stubs use (one byte per element).  With `data` not `NULL`
the bigarray lies over the memory at `data` and nothing is copied.  With
`data == NULL` the runtime calls `malloc` for `dim0` bytes, fails with
`Out_of_memory` (fatal here, no handler is installed) when that returns `NULL`
for a non-zero size, and otherwise sets `CAML_BA_MANAGED` and uses the fresh
memory.  The dimension travels through the variadic list as an `intnat`. -/
def caml_ba_alloc_dims {σ : Type} (rt : Runtime σ) (flags : Nat) (data : Nat) (dim0 : Nat)
    (w : World σ) : Outcome σ Cell :=
  if data = 0 then
    if (rt.malloc (dim0 % 18446744073709551616) w.heap).1 = 0 ∧
        dim0 % 18446744073709551616 ≠ 0 then
      .fatal { w with heap := (rt.malloc (dim0 % 18446744073709551616) w.heap).2 }
    else
      .returned
        (.bigarray (flags ||| CAML_BA_MANAGED)
          (rt.malloc (dim0 % 18446744073709551616) w.heap).1 (toSigned 64 dim0))
        { w with
          heap := (rt.malloc (dim0 % 18446744073709551616) w.heap).2
          trace := w.trace ++ [Event.alloc (.cell (.bigarray (flags ||| CAML_BA_MANAGED)
            (rt.malloc (dim0 % 18446744073709551616) w.heap).1 (toSigned 64 dim0)))] }
  else
    .returned (.bigarray flags data (toSigned 64 dim0))
      (w.log (Event.alloc (.cell (.bigarray flags data (toSigned 64 dim0)))))

/-! ## open -/

/-- Embeds `ocaml_mirage_block_open(uri, buffered, &out, &err)`; returns the new
contents of `*out` and `*err`. -/
def ocaml_mirage_block_open {σ : Type} (rt : Runtime σ) (uri : String) (buffered : Int)
    (out : Option Int) (_err : Int) (w : World σ) : Outcome σ (Option Int × Int) :=
  let ocaml_uri := caml_copy_string uri
  let ocaml_buffered := Val_bool buffered
  (OCAML_NAMED_FUNCTION rt .ep_open (w.log (Event.alloc ocaml_uri))).bind fun fn w1 =>
    match caml_callbackN_exn rt fn [ocaml_uri, ocaml_buffered] w1 with
    | (handle, w2) =>
      if Is_exception_result handle then .returned (out, 1) w2
      else
        match Int_val (some handle) with
        | some n => .returned (some n, 0) w2
        | none => .undefined w2

/-- Embeds `mirage_block_open(uri, buffered)`.  The local `result` starts
uninitialised (`none`). -/
def mirage_block_open {σ : Type} (rt : Runtime σ) (uri : String) (buffered : Int)
    (w : World σ) : Outcome σ mirage_block_handle :=
  (caml_acquire_runtime_system w).bind fun _ w1 =>
    (ocaml_mirage_block_open rt uri buffered none 1 w1).bind fun r w2 =>
      if r.2 != 0 then
        .returned (-1) { caml_release_runtime_system w2 with errno := EINVAL }
      else
        match r.1 with
        | some result => .returned result (caml_release_runtime_system w2)
        | none => .undefined (caml_release_runtime_system w2)

/-! ## stat -/

/-- The fields of `struct stat` in the BSD/Darwin layout, the one that has the
`st_flags` and `st_gen` members the stub assigns; the four `timespec` members
are split into seconds and nanoseconds.  There `mode_t` is an unsigned 16-bit
integer, `off_t` and `blkcnt_t` are signed 64-bit integers and `blksize_t` is a
signed 32-bit integer; the stub converts to these types where it assigns. -/
structure Stat where
  st_dev : Int
  st_mode : Int
  st_nlink : Int
  st_ino : Int
  st_uid : Int
  st_gid : Int
  st_rdev : Int
  st_atime : Int
  st_atimensec : Int
  st_mtime : Int
  st_mtimensec : Int
  st_ctime : Int
  st_ctimensec : Int
  st_birthtime : Int
  st_birthtimensec : Int
  st_size : Int
  st_blocks : Int
  st_blksize : Int
  st_flags : Int
  st_gen : Int
  st_lspare : Int
  st_qspare0 : Int
  st_qspare1 : Int

/-- The record after `bzero(out, sizeof(struct stat))`. -/
def bzero : Stat :=
  { st_dev := 0, st_mode := 0, st_nlink := 0, st_ino := 0, st_uid := 0, st_gid := 0,
    st_rdev := 0, st_atime := 0, st_atimensec := 0, st_mtime := 0, st_mtimensec := 0,
    st_ctime := 0, st_ctimensec := 0, st_birthtime := 0, st_birthtimensec := 0,
    st_size := 0, st_blocks := 0, st_blksize := 0, st_flags := 0, st_gen := 0,
    st_lspare := 0, st_qspare0 := 0, st_qspare1 := 0 }

/-- Regular-file type bit, `0100000`. -/
def S_IFREG : Nat := 32768
/-- Read permission, owner, `0400`. -/
def S_IRUSR : Nat := 256
/-- Write permission, owner, `0200`. -/
def S_IWUSR : Nat := 128
/-- Read permission, group, `040`. -/
def S_IRGRP : Nat := 32
/-- Write permission, group, `020`. -/
def S_IWGRP : Nat := 16
/-- Read permission, others, `04`. -/
def S_IROTH : Nat := 4
/-- Write permission, others, `02`. -/
def S_IWOTH : Nat := 2

/-- Embeds `ocaml_mirage_block_stat(h, out, &err)`; returns the new contents of
`*out` and `*err`.  As in the source, the three fields of `result` are read on
lines 89 to 91, before the exception test of line 92.  The `Int64_val` of line
91 dereferences the word just loaded from field 2: when that word is not a
boxed `Int64` (always so for an exception result) the stub ends `undefined`
right there, inside the crossing. -/
def ocaml_mirage_block_stat {σ : Type} (rt : Runtime σ) (h : mirage_block_handle) (out : Stat)
    (_err : Int) (w : World σ) : Outcome σ (Stat × Int) :=
  let ocaml_handle := Val_int h
  (OCAML_NAMED_FUNCTION rt .ep_stat w).bind fun fn w1 =>
    match caml_callbackN_exn rt fn [ocaml_handle] w1 with
    | (result, w2) =>
      let read_write : Option Bool := (Int_val (Field result 0)).map (fun x => x != 0)
      let sector_size : Option Int := (Int_val (Field result 1)).map (toUnsigned 32)
      let w3 := (((w2.log (Event.field result 0)).log (Event.field result 1)).log
        (Event.field result 2)).log (Event.int64_val (Field result 2))
      match Int64_val (Field result 2) with
      | none => .undefined w3
      | some n64 =>
        let size_sectors : Int := toUnsigned 64 n64
        if Is_exception_result result then .returned (out, 1) w3
        else
          match read_write, sector_size with
          | some read_write, some sector_size =>
            .returned
              ({ bzero with
                  st_dev := 0
                  st_ino := 0
                  st_mode := toUnsigned 16 ((S_IFREG ||| S_IROTH ||| S_IRGRP ||| S_IRUSR |||
                    (if read_write then (S_IWOTH ||| S_IWGRP ||| S_IWUSR) else 0) : Nat) : Int)
                  st_nlink := 1
                  st_uid := 0
                  st_gid := 0
                  st_rdev := 0
                  st_size := toSigned 64 (toUnsigned 64 (sector_size * size_sectors))
                  st_blocks := toSigned 64 size_sectors
                  st_blksize := toSigned 32 sector_size
                  st_flags := 0
                  st_gen := 0 }, 0) w3
          | _, _ => .undefined w3

/-- Embeds `mirage_block_stat(h, buf)`; returns the return value and the contents of
`*buf` afterwards. -/
def mirage_block_stat {σ : Type} (rt : Runtime σ) (h : mirage_block_handle) (buf : Stat)
    (w : World σ) :
    Outcome σ (Int × Stat) :=
  (caml_acquire_runtime_system w).bind fun _ w1 =>
    (ocaml_mirage_block_stat rt h buf 1 w1).bind fun r w2 =>
      if r.2 != 0 then
        .returned (-1, r.1) { caml_release_runtime_system w2 with errno := EINVAL }
      else
        .returned (0, r.1) (caml_release_runtime_system w2)

/-! ## close -/

/-- Embeds `ocaml_mirage_block_close(handle, &err)`; returns the new `*err`. -/
def ocaml_mirage_block_close {σ : Type} (rt : Runtime σ) (handle : Int) (_err : Int)
    (w : World σ) : Outcome σ Int :=
  let ocaml_handle := Val_int handle
  (OCAML_NAMED_FUNCTION rt .ep_close w).bind fun fn w1 =>
    match caml_callbackN_exn rt fn [ocaml_handle] w1 with
    | (result, w2) =>
      if Is_exception_result result then .returned 1 w2 else .returned 0 w2

/-- Embeds `mirage_block_close(handle)`. -/
def mirage_block_close {σ : Type} (rt : Runtime σ) (handle : Int) (w : World σ) :
    Outcome σ Int :=
  (caml_acquire_runtime_system w).bind fun _ w1 =>
    (ocaml_mirage_block_close rt handle 1 w1).bind fun err w2 =>
      .returned err (caml_release_runtime_system w2)

/-! ## preadv and pwritev -/

/-- One `struct iovec`: base address and length in bytes. -/
structure iovec where
  iov_base : Nat
  iov_len : Nat
  deriving DecidableEq, Repr

/-- Embeds `ocaml_mirage_block_preadv(handle, iov, iovcnt, ofs, &out, &err)`; `iov` is
the caller's array, read at `iov + i`; returns the new `*out` and `*err`. -/
def ocaml_mirage_block_preadv {σ : Type} (rt : Runtime σ) (handle : Int) (iov : Nat → iovec)
    (iovcnt : Int) (ofs : Int) (out : Option Int) (_err : Int) (w : World σ) :
    Outcome σ (Option Int × Int) :=
  let ocaml_handle := Val_int handle
  (caml_alloc_tuple (toUnsigned 64 iovcnt) w).bind fun ocaml_bufs w1 =>
    let ocaml_ofs := Val_int ofs
    ((List.range iovcnt.toNat).foldl
      (fun (s : Outcome σ Value) i =>
        s.bind fun bufs w2 =>
          (caml_ba_alloc_dims rt (CAML_BA_CHAR ||| CAML_BA_C_LAYOUT)
            (iov i).iov_base (iov i).iov_len w2).bind fun ba w3 =>
              .returned (Store_field bufs i ba) w3)
      (.returned ocaml_bufs w1)).bind fun ocaml_bufs w4 =>
        (OCAML_NAMED_FUNCTION rt .ep_preadv w4).bind fun fn w5 =>
          match caml_callbackN_exn rt fn [ocaml_handle, ocaml_bufs, ocaml_ofs] w5 with
          | (ocaml_result, w6) =>
            if Is_exception_result ocaml_result then .returned (out, 1) w6
            else
              match Int_val (some ocaml_result) with
              | some n => .returned (some n, 0) w6
              | none => .undefined w6

/-- Embeds `mirage_block_preadv(h, iov, iovcnt, offset)`.  The local `len` starts
uninitialised (`none`). -/
def mirage_block_preadv {σ : Type} (rt : Runtime σ) (h : mirage_block_handle)
    (iov : Nat → iovec)
    (iovcnt : Int) (offset : Int) (w : World σ) : Outcome σ Int :=
  (caml_acquire_runtime_system w).bind fun _ w1 =>
    (ocaml_mirage_block_preadv rt h iov iovcnt offset none 1 w1).bind fun r w2 =>
      if r.2 != 0 then
        .returned (-1) { caml_release_runtime_system w2 with errno := EINVAL }
      else
        match r.1 with
        | some len => .returned len (caml_release_runtime_system w2)
        | none => .undefined (caml_release_runtime_system w2)

/-- Embeds `ocaml_mirage_block_pwritev(handle, iov, iovcnt, ofs, &out, &err)`; returns
the new `*out` and `*err`. -/
def ocaml_mirage_block_pwritev {σ : Type} (rt : Runtime σ) (handle : Int) (iov : Nat → iovec)
    (iovcnt : Int) (ofs : Int) (out : Option Int) (_err : Int) (w : World σ) :
    Outcome σ (Option Int × Int) :=
  let ocaml_handle := Val_int handle
  (caml_alloc_tuple (toUnsigned 64 iovcnt) w).bind fun ocaml_bufs w1 =>
    let ocaml_ofs := Val_int ofs
    ((List.range iovcnt.toNat).foldl
      (fun (s : Outcome σ Value) i =>
        s.bind fun bufs w2 =>
          (caml_ba_alloc_dims rt (CAML_BA_CHAR ||| CAML_BA_C_LAYOUT)
            (iov i).iov_base (iov i).iov_len w2).bind fun ba w3 =>
              .returned (Store_field bufs i ba) w3)
      (.returned ocaml_bufs w1)).bind fun ocaml_bufs w4 =>
        (OCAML_NAMED_FUNCTION rt .ep_pwritev w4).bind fun fn w5 =>
          match caml_callbackN_exn rt fn [ocaml_handle, ocaml_bufs, ocaml_ofs] w5 with
          | (ocaml_result, w6) =>
            if Is_exception_result ocaml_result then .returned (out, 1) w6
            else
              match Int_val (some ocaml_result) with
              | some n => .returned (some n, 0) w6
              | none => .undefined w6

/-- Embeds `mirage_block_pwritev(h, iov, iovcnt, offset)`. -/
def mirage_block_pwritev {σ : Type} (rt : Runtime σ) (h : mirage_block_handle)
    (iov : Nat → iovec)
    (iovcnt : Int) (offset : Int) (w : World σ) : Outcome σ Int :=
  (caml_acquire_runtime_system w).bind fun _ w1 =>
    (ocaml_mirage_block_pwritev rt h iov iovcnt offset none 1 w1).bind fun r w2 =>
      if r.2 != 0 then
        .returned (-1) { caml_release_runtime_system w2 with errno := EINVAL }
      else
        match r.1 with
        | some len => .returned len (caml_release_runtime_system w2)
        | none => .undefined (caml_release_runtime_system w2)

/-! ## flush -/

/-- Embeds `ocaml_mirage_block_flush(handle, &err)`; returns the new `*err`.  This
stub sets `errno` itself, still under the lock. -/
def ocaml_mirage_block_flush {σ : Type} (rt : Runtime σ) (handle : Int) (_err : Int)
    (w : World σ) : Outcome σ Int :=
  let ocaml_handle := Val_int handle
  (OCAML_NAMED_FUNCTION rt .ep_flush w).bind fun fn w1 =>
    match caml_callbackN_exn rt fn [ocaml_handle] w1 with
    | (result, w2) =>
      if Is_exception_result result then .returned 1 { w2 with errno := EINVAL }
      else .returned 0 w2

/-- Embeds `mirage_block_flush(handle)`. -/
def mirage_block_flush {σ : Type} (rt : Runtime σ) (handle : Int) (w : World σ) :
    Outcome σ Int :=
  (caml_acquire_runtime_system w).bind fun _ w1 =>
    (ocaml_mirage_block_flush rt handle 1 w1).bind fun err w2 =>
      .returned err (caml_release_runtime_system w2)

/-! ## A concrete runtime for evaluation -/

/-- A runtime with one device, `mem:testdisk`, opened as handle 3: 100 sectors
of 512 bytes, read-write.  Reads and writes transfer every byte offered; any
other locator or handle raises.  Its `malloc` always answers the address
65536. -/
def testdisk : Runtime Unit where
  caml_named_value := fun name =>
    if name = "mirage_block_open" then some 0
    else if name = "mirage_block_stat" then some 1
    else if name = "mirage_block_close" then some 2
    else if name = "mirage_block_preadv" then some 3
    else if name = "mirage_block_pwritev" then some 4
    else if name = "mirage_block_flush" then some 5
    else none
  caml_callback_exn := fun f args s =>
    match f, args with
    | 0, [.cell (.string uri), .cell (.int _)] =>
      if uri = "mem:testdisk" then (.cell (.int 3), s)
      else (.exception_result (.string "Not_found"), s)
    | 1, [.cell (.int 3)] => (.tuple [.int 1, .int 512, .int64 100], s)
    | 2, [.cell (.int 3)] => (.cell (.int 0), s)
    | 3, [.cell (.int 3), .tuple bufs, .cell (.int _)] =>
      (.cell (.int (bufs.map (fun c => match c with
        | .bigarray _ _ dim => dim
        | _ => 0)).sum), s)
    | 4, [.cell (.int 3), .tuple bufs, .cell (.int _)] =>
      (.cell (.int (bufs.map (fun c => match c with
        | .bigarray _ _ dim => dim
        | _ => 0)).sum), s)
    | 5, [.cell (.int 3)] => (.cell (.int 0), s)
    | _, _ => (.exception_result (.string "Invalid_argument"), s)
  malloc := fun _ s => (65536, s)

/-- A registered thread that does not hold the lock and has resolved no entry
point yet. -/
def fresh : World Unit :=
  { errno := 0, lock_held := false, fn := fun _ => none, heap := (), trace := [] }

/-- The return value of an outcome, if it returned. -/
def Outcome.ret? {σ α : Type} : Outcome σ α → Option α
  | .returned a _ => some a
  | _ => none

/-- The world an outcome ends in. -/
def Outcome.world {σ α : Type} : Outcome σ α → World σ
  | .returned _ w => w
  | .fatal w => w
  | .blocked w => w
  | .undefined w => w

/-- A runtime in which every name is registered and every call returns `v`,
leaving the managed state alone. -/
def answering (v : Value) : Runtime Unit where
  caml_named_value := fun _ => some 0
  caml_callback_exn := fun _ _ s => (v, s)
  malloc := fun _ s => (65536, s)

/-! ## Vocabulary of the statements -/

/-- The closure an entry point resolves to: the cached `fn` if there is one,
else the registered value of its name (`none`: the stub would abort). -/
def resolved {σ : Type} (rt : Runtime σ) (ep : EntryPoint) (w : World σ) : Option Closure :=
  match w.fn ep with
  | some f => some f
  | none => rt.caml_named_value ep.name

/-- The bigarray the marshaling loop allocates for one descriptor, and the
managed state afterwards; `none` when the allocation is fatal. -/
def view_of {σ : Type} (rt : Runtime σ) (v : iovec) (s : σ) : Option (Cell × σ) :=
  if v.iov_base = 0 then
    if (rt.malloc (v.iov_len % 18446744073709551616) s).1 = 0 ∧
        v.iov_len % 18446744073709551616 ≠ 0 then none
    else
      some (.bigarray (CAML_BA_CHAR ||| CAML_BA_C_LAYOUT ||| CAML_BA_MANAGED)
        (rt.malloc (v.iov_len % 18446744073709551616) s).1 (toSigned 64 v.iov_len),
        (rt.malloc (v.iov_len % 18446744073709551616) s).2)
  else
    some (.bigarray (CAML_BA_CHAR ||| CAML_BA_C_LAYOUT) v.iov_base (toSigned 64 v.iov_len), s)

/-- What the marshaling loop of `preadv` and `pwritev` builds for `iov[0..n)`
from managed state `s`: the fields of the tuple, in order, and the managed
state afterwards; `none` when one of the allocations is fatal, in which case
the entry point is never reached. -/
def bufs_of {σ : Type} (rt : Runtime σ) (iov : Nat → iovec) : Nat → σ → Option (List Cell × σ)
  | 0, s => some ([], s)
  | n + 1, s =>
    match bufs_of rt iov n s with
    | none => none
    | some (cs, s1) =>
      match view_of rt (iov n) s1 with
      | none => none
      | some (c, s2) => some (cs ++ [c], s2)

/-- The sum of the requested lengths `iov[0..n)`. -/
def total_len (iov : Nat → iovec) (n : Nat) : Int :=
  ((List.range n).map fun i => ((iov i).iov_len : Int)).sum

/-- Lock events. -/
def Event.isLock : Event → Bool
  | .acquire => true
  | .release => true
  | _ => false

/-- Invocations of an entry point. -/
def Event.isCallback : Event → Bool
  | .callback _ _ _ => true
  | _ => false

/-- One crossing into the runtime took `w` to `w1`: closure `f` of entry point
`ep` was applied to `args` in managed state `s`; before the call only the
events `pre` were logged (no lock event, no call) and after it exactly `post`;
the managed state is what the call left; the cache of `ep` holds `f` and the
other caches are untouched; the lock did not change hands. -/
structure Crossing {σ : Type} (rt : Runtime σ) (ep : EntryPoint) (f : Closure)
    (args : List Value) (s : σ) (post : List Event) (w w1 : World σ) : Prop where
  lock_eq : w1.lock_held = w.lock_held
  heap_eq : w1.heap = (rt.caml_callback_exn f args s).2
  trace_eq : ∃ pre, w1.trace = w.trace ++ pre ++
      [Event.callback f args (rt.caml_callback_exn f args s).1] ++ post ∧
      ∀ e ∈ pre, e.isLock = false ∧ e.isCallback = false
  fn_eq : w1.fn ep = some f
  fn_frame : ∀ ep2, ep2 ≠ ep → w1.fn ep2 = w.fn ep2

/-- A whole operation took `w` to `w1`: the lock was taken once, then came the
events `pre` (no lock event, no call), the one call of closure `f` on `args`
in managed state `s`, the events `post`, and one release; the lock is free
again. -/
structure Bracketed {σ : Type} (rt : Runtime σ) (ep : EntryPoint) (f : Closure)
    (args : List Value) (s : σ) (post : List Event) (w w1 : World σ) : Prop where
  lock_free : w1.lock_held = false
  heap_eq : w1.heap = (rt.caml_callback_exn f args s).2
  trace_eq : ∃ pre, w1.trace = w.trace ++ [Event.acquire] ++ pre ++
      [Event.callback f args (rt.caml_callback_exn f args s).1] ++ post ++
      [Event.release] ∧
      ∀ e ∈ pre, e.isLock = false ∧ e.isCallback = false
  fn_eq : w1.fn ep = some f
  fn_frame : ∀ ep2, ep2 ≠ ep → w1.fn ep2 = w.fn ep2

/-- Replay a trace against the lock, starting with the lock held or not:
`acquire` needs it free, `release` and every event that touches the runtime
need it held.  The result is the final state of the lock, or `none` if the
discipline is broken somewhere. -/
def replay : Bool → List Event → Option Bool
  | held, [] => some held
  | held, Event.acquire :: es => if held then none else replay true es
  | held, Event.release :: es => if held then replay false es else none
  | held, _ :: es => if held then replay true es else none

/-! # Lemmas -/

/-! ## The resolver -/

theorem OCAML_NAMED_FUNCTION_resolved {σ : Type} (rt : Runtime σ) (ep : EntryPoint)
    (w : World σ) (f : Closure) (h : resolved rt ep w = some f) :
    ∃ w1 t, OCAML_NAMED_FUNCTION rt ep w = .returned f w1 ∧ w1.errno = w.errno ∧
      w1.lock_held = w.lock_held ∧ w1.heap = w.heap ∧ w1.trace = w.trace ++ t ∧
      (∀ e ∈ t, e.isLock = false ∧ e.isCallback = false) ∧
      w1.fn ep = some f ∧ (∀ ep2, ep2 ≠ ep → w1.fn ep2 = w.fn ep2) := by
  unfold resolved at h
  unfold OCAML_NAMED_FUNCTION
  cases hfn : w.fn ep with
  | some g =>
    rw [hfn] at h
    cases h
    exact ⟨w, [], by simp [hfn]⟩
  | none =>
    rw [hfn] at h
    simp only at h
    rw [h]
    refine ⟨_, [Event.named_value ep.name], rfl, rfl, rfl, rfl, rfl, ?_, ?_, ?_⟩
    · intro e he
      simp at he
      subst he
      exact ⟨rfl, rfl⟩
    · simp
    · intro ep2 hne
      simp [Function.update, hne]

/-! ## The marshaling loop -/

theorem set_at_length {α : Type} (l1 l2 : List α) (a b : α) :
    (l1 ++ a :: l2).set l1.length b = l1 ++ b :: l2 := by
  induction l1 with
  | nil => rfl
  | cons x xs ih => simp [List.set, ih]

theorem caml_ba_alloc_dims_view {σ : Type} (rt : Runtime σ) (v : iovec) (w : World σ)
    (c : Cell) (s1 : σ) (h : view_of rt v w.heap = some (c, s1)) :
    caml_ba_alloc_dims rt (CAML_BA_CHAR ||| CAML_BA_C_LAYOUT) v.iov_base v.iov_len w =
      .returned c { w with heap := s1, trace := w.trace ++ [Event.alloc (.cell c)] } := by
  unfold view_of at h
  unfold caml_ba_alloc_dims
  by_cases hb : v.iov_base = 0
  · rw [if_pos hb] at h
    rw [if_pos hb]
    by_cases hm : (rt.malloc (v.iov_len % 18446744073709551616) w.heap).1 = 0 ∧
        v.iov_len % 18446744073709551616 ≠ 0
    · rw [if_pos hm] at h
      cases h
    · rw [if_neg hm] at h
      rw [if_neg hm]
      simp only [Option.some.injEq, Prod.mk.injEq] at h
      obtain ⟨hc, hs⟩ := h
      subst hc
      subst hs
      rfl
  · rw [if_neg hb] at h
    rw [if_neg hb]
    simp only [Option.some.injEq, Prod.mk.injEq] at h
    obtain ⟨hc, hs⟩ := h
    subst hc
    subst hs
    rfl

theorem bufs_of_length {σ : Type} (rt : Runtime σ) (iov : Nat → iovec) (n : Nat) (s s1 : σ)
    (cs : List Cell) (h : bufs_of rt iov n s = some (cs, s1)) : cs.length = n := by
  induction n generalizing cs s1 with
  | zero =>
    simp only [bufs_of, Option.some.injEq, Prod.mk.injEq] at h
    rw [← h.1]
    rfl
  | succ k ih =>
    simp only [bufs_of] at h
    cases hk : bufs_of rt iov k s with
    | none => simp [hk] at h
    | some p =>
      obtain ⟨cs0, s0⟩ := p
      simp only [hk] at h
      cases hv : view_of rt (iov k) s0 with
      | none => simp [hv] at h
      | some q =>
        obtain ⟨c, s2⟩ := q
        simp only [hv, Option.some.injEq, Prod.mk.injEq] at h
        rw [← h.1, List.length_append, ih s0 cs0 hk]
        rfl

theorem store_loop {σ : Type} (rt : Runtime σ) (iov : Nat → iovec) (n m : Nat) (z : Cell)
    (w : World σ) (cs : List Cell) (s1 : σ) (h : bufs_of rt iov n w.heap = some (cs, s1)) :
    (List.range n).foldl
      (fun (s : Outcome σ Value) i =>
        s.bind fun bufs w2 =>
          (caml_ba_alloc_dims rt (CAML_BA_CHAR ||| CAML_BA_C_LAYOUT)
            (iov i).iov_base (iov i).iov_len w2).bind fun ba w3 =>
              .returned (Store_field bufs i ba) w3)
      (.returned (Value.tuple (List.replicate (n + m) z)) w)
    = .returned (Value.tuple (cs ++ List.replicate m z))
       { w with heap := s1, trace := w.trace ++ cs.map fun c => Event.alloc (.cell c) } := by
  induction n generalizing m cs s1 with
  | zero =>
    simp only [bufs_of, Option.some.injEq, Prod.mk.injEq] at h
    obtain ⟨hc, hs⟩ := h
    subst hc
    subst hs
    simp
  | succ k ih =>
    simp only [bufs_of] at h
    cases hk : bufs_of rt iov k w.heap with
    | none => simp [hk] at h
    | some p =>
      obtain ⟨cs0, s0⟩ := p
      simp only [hk] at h
      cases hv : view_of rt (iov k) s0 with
      | none => simp [hv] at h
      | some q =>
        obtain ⟨c, s2⟩ := q
        simp only [hv, Option.some.injEq, Prod.mk.injEq] at h
        obtain ⟨hc, hs⟩ := h
        subst hc
        subst hs
        have hkm : k + 1 + m = k + (m + 1) := by omega
        rw [List.range_succ, List.foldl_append, hkm, ih (m + 1) cs0 s0 hk]
        have hlen : cs0.length = k := bufs_of_length rt iov k w.heap s0 cs0 hk
        have hset := set_at_length cs0 (List.replicate m z) z c
        rw [hlen] at hset
        have hview := caml_ba_alloc_dims_view rt (iov k)
          { w with heap := s0, trace := w.trace ++ cs0.map fun c => Event.alloc (.cell c) }
          c s2 hv
        simp only [List.foldl_cons, List.foldl_nil, Outcome.bind, hview, Store_field,
          List.replicate_succ, hset]
        simp

theorem bind_returned {σ α β : Type} (a : α) (w : World σ)
    (k : α → World σ → Outcome σ β) : (Outcome.returned a w).bind k = k a w := rfl

theorem ocaml_mirage_block_stat_crossing {σ : Type} (rt : Runtime σ) (w : World σ)
    (h : Int) (out : Stat) (err : Int) (f : Closure)
    (hres : resolved rt .ep_stat w = some f) :
    ∃ w1, w1.errno = w.errno ∧
      Crossing rt .ep_stat f [Val_int h] w.heap
        [Event.field (rt.caml_callback_exn f [Val_int h] w.heap).1 0,
         Event.field (rt.caml_callback_exn f [Val_int h] w.heap).1 1,
         Event.field (rt.caml_callback_exn f [Val_int h] w.heap).1 2,
         Event.int64_val (Field (rt.caml_callback_exn f [Val_int h] w.heap).1 2)] w w1 ∧
      (Int64_val (Field (rt.caml_callback_exn f [Val_int h] w.heap).1 2) = none →
        ocaml_mirage_block_stat rt h out err w = .undefined w1) ∧
      (∀ b ss n, (rt.caml_callback_exn f [Val_int h] w.heap).1 =
          .tuple [Cell.int b, Cell.int ss, Cell.int64 n] →
        ocaml_mirage_block_stat rt h out err w = .returned
          ({ bzero with
              st_mode := toUnsigned 16 ((S_IFREG ||| S_IROTH ||| S_IRGRP ||| S_IRUSR |||
                (if toSigned 32 b != 0 then (S_IWOTH ||| S_IWGRP ||| S_IWUSR) else 0) : Nat) : Int)
              st_nlink := 1
              st_size := toSigned 64 (toUnsigned 64
                (toUnsigned 32 (toSigned 32 ss) * toUnsigned 64 (toSigned 64 n)))
              st_blocks := toSigned 64 (toUnsigned 64 (toSigned 64 n))
              st_blksize := toSigned 32 (toUnsigned 32 (toSigned 32 ss)) }, 0) w1) := by
  obtain ⟨w1, t, h1, he, hl, hh, ht, hpre, hfn, hfr⟩ :=
    OCAML_NAMED_FUNCTION_resolved rt _ _ f hres
  refine ⟨((((caml_callbackN_exn rt f [Val_int h] w1).2.log
      (Event.field (rt.caml_callback_exn f [Val_int h] w.heap).1 0)).log
      (Event.field (rt.caml_callback_exn f [Val_int h] w.heap).1 1)).log
      (Event.field (rt.caml_callback_exn f [Val_int h] w.heap).1 2)).log
      (Event.int64_val (Field (rt.caml_callback_exn f [Val_int h] w.heap).1 2)), ?_, ?_, ?_, ?_⟩
  · exact he
  · refine ⟨hl, by simp [caml_callbackN_exn, World.log, hh], ⟨t, ?_, hpre⟩, hfn, hfr⟩
    simp [caml_callbackN_exn, World.log, ht, hh]
  · intro hx
    simp only [ocaml_mirage_block_stat, h1, Outcome.bind, caml_callbackN_exn, hh, hx]
  · intro b ss n hr
    simp only [ocaml_mirage_block_stat, h1, Outcome.bind, caml_callbackN_exn, hh, hr]
    simp [Is_exception_result, Field, Int_val, Int64_val, bzero]

theorem ocaml_mirage_block_close_crossing {σ : Type} (rt : Runtime σ) (w : World σ)
    (handle : Int) (err : Int) (f : Closure)
    (hres : resolved rt .ep_close w = some f) :
    ∃ w1, ocaml_mirage_block_close rt handle err w =
        .returned (if Is_exception_result (rt.caml_callback_exn f [Val_int handle] w.heap).1
          then 1 else 0) w1 ∧
      w1.errno = w.errno ∧ Crossing rt .ep_close f [Val_int handle] w.heap [] w w1 := by
  obtain ⟨w1, t, h1, he, hl, hh, ht, hpre, hfn, hfr⟩ :=
    OCAML_NAMED_FUNCTION_resolved rt _ _ f hres
  refine ⟨(caml_callbackN_exn rt f [Val_int handle] w1).2, ?_, ?_, ?_⟩
  · simp only [ocaml_mirage_block_close, h1, Outcome.bind, caml_callbackN_exn, hh]
    split <;> rfl
  · exact he
  · refine ⟨hl, by simp [caml_callbackN_exn, hh], ⟨t, ?_, hpre⟩, hfn, hfr⟩
    simp [caml_callbackN_exn, ht, hh]

theorem ocaml_mirage_block_flush_crossing {σ : Type} (rt : Runtime σ) (w : World σ)
    (handle : Int) (err : Int) (f : Closure)
    (hres : resolved rt .ep_flush w = some f) :
    ∃ w1, ocaml_mirage_block_flush rt handle err w =
        .returned (if Is_exception_result (rt.caml_callback_exn f [Val_int handle] w.heap).1
          then 1 else 0) w1 ∧
      w1.errno = (if Is_exception_result (rt.caml_callback_exn f [Val_int handle] w.heap).1
          then EINVAL else w.errno) ∧
      Crossing rt .ep_flush f [Val_int handle] w.heap [] w w1 := by
  obtain ⟨w1, t, h1, he, hl, hh, ht, hpre, hfn, hfr⟩ :=
    OCAML_NAMED_FUNCTION_resolved rt _ _ f hres
  refine ⟨{ (caml_callbackN_exn rt f [Val_int handle] w1).2 with
      errno := (if Is_exception_result (rt.caml_callback_exn f [Val_int handle] w.heap).1
          then EINVAL else w.errno) }, ?_, rfl, ?_⟩
  · simp only [ocaml_mirage_block_flush, h1, Outcome.bind, caml_callbackN_exn, hh]
    split
    · rfl
    · simp [he]
  · refine ⟨hl, by simp [caml_callbackN_exn, hh], ⟨t, ?_, hpre⟩, hfn, hfr⟩
    simp [caml_callbackN_exn, ht, hh]

theorem toUnsigned_64_of_int (x : Int) (h0 : 0 ≤ x) (h1 : x < 2147483648) :
    toUnsigned 64 x = x := by
  unfold toUnsigned
  norm_num
  omega

theorem ocaml_mirage_block_preadv_crossing {σ : Type} (rt : Runtime σ) (w : World σ)
    (handle : Int) (iov : Nat → iovec) (iovcnt : Int) (ofs : Int) (out : Option Int)
    (err : Int) (f : Closure) (bufs : List Cell) (s1 : σ)
    (h0 : 0 ≤ iovcnt) (h1 : iovcnt < 2147483648)
    (hb : bufs_of rt iov iovcnt.toNat w.heap = some (bufs, s1))
    (hres : resolved rt .ep_preadv w = some f) :
    ∃ w1, ocaml_mirage_block_preadv rt handle iov iovcnt ofs out err w =
        (if Is_exception_result (rt.caml_callback_exn f
            [Val_int handle, .tuple bufs, Val_int ofs] s1).1
          then .returned (out, 1) w1
          else match Int_val (some (rt.caml_callback_exn f
              [Val_int handle, .tuple bufs, Val_int ofs] s1).1) with
            | some n => .returned (some n, 0) w1
            | none => .undefined w1) ∧
      w1.errno = w.errno ∧
      Crossing rt .ep_preadv f [Val_int handle, .tuple bufs, Val_int ofs] s1 [] w w1 := by
  have hloop := store_loop rt iov iovcnt.toNat 0 (Cell.int 0)
    (w.log (Event.alloc (.tuple (List.replicate iovcnt.toNat (Cell.int 0))))) bufs s1 hb
  simp only [Nat.add_zero, List.replicate_zero, List.append_nil] at hloop
  have hres1 : resolved rt .ep_preadv
      { w.log (Event.alloc (.tuple (List.replicate iovcnt.toNat (Cell.int 0)))) with
        heap := s1
        trace := (w.log (Event.alloc (.tuple (List.replicate iovcnt.toNat (Cell.int 0))))).trace
          ++ bufs.map fun c => Event.alloc (.cell c) } = some f := hres
  obtain ⟨w1, t, hf, he, hl, hh, ht, hpre, hfn, hfr⟩ :=
    OCAML_NAMED_FUNCTION_resolved rt _ _ f hres1
  simp only [World.log] at hh he hl ht hfr
  have hbig : ¬ (iovcnt > Max_wosize) := by
    unfold Max_wosize
    omega
  refine ⟨(caml_callbackN_exn rt f
      [Val_int handle, .tuple bufs, Val_int ofs] w1).2, ?_, ?_, ?_⟩
  · simp only [ocaml_mirage_block_preadv, toUnsigned_64_of_int iovcnt h0 h1, caml_alloc_tuple,
      hbig, if_false, bind_returned, hloop, hf, caml_callbackN_exn, hh]
  · exact he
  · refine ⟨hl, by simp [caml_callbackN_exn, hh],
      ⟨Event.alloc (.tuple (List.replicate iovcnt.toNat (Cell.int 0))) ::
        (bufs.map fun c => Event.alloc (.cell c)) ++ t, ?_, ?_⟩, hfn, hfr⟩
    · simp [caml_callbackN_exn, ht, hh]
    · intro e he
      simp at he
      rcases he with rfl | ⟨c, -, rfl⟩ | he
      · exact ⟨rfl, rfl⟩
      · exact ⟨rfl, rfl⟩
      · exact hpre e he

theorem ocaml_mirage_block_pwritev_crossing {σ : Type} (rt : Runtime σ) (w : World σ)
    (handle : Int) (iov : Nat → iovec) (iovcnt : Int) (ofs : Int) (out : Option Int)
    (err : Int) (f : Closure) (bufs : List Cell) (s1 : σ)
    (h0 : 0 ≤ iovcnt) (h1 : iovcnt < 2147483648)
    (hb : bufs_of rt iov iovcnt.toNat w.heap = some (bufs, s1))
    (hres : resolved rt .ep_pwritev w = some f) :
    ∃ w1, ocaml_mirage_block_pwritev rt handle iov iovcnt ofs out err w =
        (if Is_exception_result (rt.caml_callback_exn f
            [Val_int handle, .tuple bufs, Val_int ofs] s1).1
          then .returned (out, 1) w1
          else match Int_val (some (rt.caml_callback_exn f
              [Val_int handle, .tuple bufs, Val_int ofs] s1).1) with
            | some n => .returned (some n, 0) w1
            | none => .undefined w1) ∧
      w1.errno = w.errno ∧
      Crossing rt .ep_pwritev f [Val_int handle, .tuple bufs, Val_int ofs] s1 [] w w1 := by
  have hloop := store_loop rt iov iovcnt.toNat 0 (Cell.int 0)
    (w.log (Event.alloc (.tuple (List.replicate iovcnt.toNat (Cell.int 0))))) bufs s1 hb
  simp only [Nat.add_zero, List.replicate_zero, List.append_nil] at hloop
  have hres1 : resolved rt .ep_pwritev
      { w.log (Event.alloc (.tuple (List.replicate iovcnt.toNat (Cell.int 0)))) with
        heap := s1
        trace := (w.log (Event.alloc (.tuple (List.replicate iovcnt.toNat (Cell.int 0))))).trace
          ++ bufs.map fun c => Event.alloc (.cell c) } = some f := hres
  obtain ⟨w1, t, hf, he, hl, hh, ht, hpre, hfn, hfr⟩ :=
    OCAML_NAMED_FUNCTION_resolved rt _ _ f hres1
  simp only [World.log] at hh he hl ht hfr
  have hbig : ¬ (iovcnt > Max_wosize) := by
    unfold Max_wosize
    omega
  refine ⟨(caml_callbackN_exn rt f
      [Val_int handle, .tuple bufs, Val_int ofs] w1).2, ?_, ?_, ?_⟩
  · simp only [ocaml_mirage_block_pwritev, toUnsigned_64_of_int iovcnt h0 h1, caml_alloc_tuple,
      hbig, if_false, bind_returned, hloop, hf, caml_callbackN_exn, hh]
  · exact he
  · refine ⟨hl, by simp [caml_callbackN_exn, hh],
      ⟨Event.alloc (.tuple (List.replicate iovcnt.toNat (Cell.int 0))) ::
        (bufs.map fun c => Event.alloc (.cell c)) ++ t, ?_, ?_⟩, hfn, hfr⟩
    · simp [caml_callbackN_exn, ht, hh]
    · intro e he
      simp at he
      rcases he with rfl | ⟨c, -, rfl⟩ | he
      · exact ⟨rfl, rfl⟩
      · exact ⟨rfl, rfl⟩
      · exact hpre e he

/-! ## The exported operations -/

theorem Bracketed.of_crossing {σ : Type} {rt : Runtime σ} {ep : EntryPoint} {f : Closure}
    {args : List Value} {s : σ} {post : List Event} {w w1 w2 : World σ}
    (hc : Crossing rt ep f args s post
      { w with lock_held := true, trace := w.trace ++ [Event.acquire] } w1)
    (hl : w2.lock_held = false) (hh : w2.heap = w1.heap)
    (ht : w2.trace = w1.trace ++ [Event.release]) (hf : w2.fn = w1.fn) :
    Bracketed rt ep f args s post w w2 := by
  obtain ⟨-, h2, ⟨pre, h3, h4⟩, h5, h6⟩ := hc
  refine ⟨hl, by rw [hh, h2], ⟨pre, ?_, h4⟩, by rw [hf, h5], ?_⟩
  · rw [ht, h3]
  · intro ep2 hne
    rw [hf]
    exact h6 ep2 hne

theorem mirage_block_preadv_spec {σ : Type} (rt : Runtime σ) (w : World σ) (h : Int)
    (iov : Nat → iovec) (iovcnt : Int) (offset : Int) (f : Closure) (bufs : List Cell) (s1 : σ)
    (hlock : w.lock_held = false) (h0 : 0 ≤ iovcnt) (h1 : iovcnt < 2147483648)
    (hb : bufs_of rt iov iovcnt.toNat w.heap = some (bufs, s1))
    (hres : resolved rt .ep_preadv w = some f) :
    ∃ w1, Bracketed rt .ep_preadv f [Val_int h, .tuple bufs, Val_int offset] s1 [] w w1 ∧
      (Is_exception_result (rt.caml_callback_exn f
          [Val_int h, .tuple bufs, Val_int offset] s1).1 = true →
        mirage_block_preadv rt h iov iovcnt offset w = .returned (-1) w1 ∧ w1.errno = EINVAL) ∧
      (Is_exception_result (rt.caml_callback_exn f
          [Val_int h, .tuple bufs, Val_int offset] s1).1 = false →
        w1.errno = w.errno ∧
        ∀ n, Int_val (some (rt.caml_callback_exn f
            [Val_int h, .tuple bufs, Val_int offset] s1).1) = some n →
          mirage_block_preadv rt h iov iovcnt offset w = .returned n w1) := by
  obtain ⟨w1, hrun, he, hc⟩ := ocaml_mirage_block_preadv_crossing rt
    { w with lock_held := true, trace := w.trace ++ [Event.acquire] } h iov iovcnt offset
    none 1 f bufs s1 h0 h1 hb hres
  simp only at hrun he
  by_cases hx : Is_exception_result (rt.caml_callback_exn f
      [Val_int h, .tuple bufs, Val_int offset] s1).1 = true
  · refine ⟨{ caml_release_runtime_system w1 with errno := EINVAL },
      Bracketed.of_crossing hc rfl rfl rfl rfl, ?_, ?_⟩
    · intro _
      simp [mirage_block_preadv, caml_acquire_runtime_system, hlock, Outcome.bind, hrun, hx]
    · intro hf
      rw [hf] at hx
      cases hx
  · refine ⟨caml_release_runtime_system w1, Bracketed.of_crossing hc rfl rfl rfl rfl, ?_, ?_⟩
    · intro ht
      exact absurd ht hx
    · intro _
      refine ⟨by simp [caml_release_runtime_system, he], ?_⟩
      intro n hn
      simp [mirage_block_preadv, caml_acquire_runtime_system, hlock, Outcome.bind, hrun, hx, hn]

theorem mirage_block_pwritev_spec {σ : Type} (rt : Runtime σ) (w : World σ) (h : Int)
    (iov : Nat → iovec) (iovcnt : Int) (offset : Int) (f : Closure) (bufs : List Cell) (s1 : σ)
    (hlock : w.lock_held = false) (h0 : 0 ≤ iovcnt) (h1 : iovcnt < 2147483648)
    (hb : bufs_of rt iov iovcnt.toNat w.heap = some (bufs, s1))
    (hres : resolved rt .ep_pwritev w = some f) :
    ∃ w1, Bracketed rt .ep_pwritev f [Val_int h, .tuple bufs, Val_int offset] s1 [] w w1 ∧
      (Is_exception_result (rt.caml_callback_exn f
          [Val_int h, .tuple bufs, Val_int offset] s1).1 = true →
        mirage_block_pwritev rt h iov iovcnt offset w = .returned (-1) w1 ∧ w1.errno = EINVAL) ∧
      (Is_exception_result (rt.caml_callback_exn f
          [Val_int h, .tuple bufs, Val_int offset] s1).1 = false →
        w1.errno = w.errno ∧
        ∀ n, Int_val (some (rt.caml_callback_exn f
            [Val_int h, .tuple bufs, Val_int offset] s1).1) = some n →
          mirage_block_pwritev rt h iov iovcnt offset w = .returned n w1) := by
  obtain ⟨w1, hrun, he, hc⟩ := ocaml_mirage_block_pwritev_crossing rt
    { w with lock_held := true, trace := w.trace ++ [Event.acquire] } h iov iovcnt offset
    none 1 f bufs s1 h0 h1 hb hres
  simp only at hrun he
  by_cases hx : Is_exception_result (rt.caml_callback_exn f
      [Val_int h, .tuple bufs, Val_int offset] s1).1 = true
  · refine ⟨{ caml_release_runtime_system w1 with errno := EINVAL },
      Bracketed.of_crossing hc rfl rfl rfl rfl, ?_, ?_⟩
    · intro _
      simp [mirage_block_pwritev, caml_acquire_runtime_system, hlock, Outcome.bind, hrun, hx]
    · intro hf
      rw [hf] at hx
      cases hx
  · refine ⟨caml_release_runtime_system w1, Bracketed.of_crossing hc rfl rfl rfl rfl, ?_, ?_⟩
    · intro ht
      exact absurd ht hx
    · intro _
      refine ⟨by simp [caml_release_runtime_system, he], ?_⟩
      intro n hn
      simp [mirage_block_pwritev, caml_acquire_runtime_system, hlock, Outcome.bind, hrun, hx, hn]

theorem mirage_block_stat_spec {σ : Type} (rt : Runtime σ) (w : World σ) (h : Int)
    (buf : Stat) (f : Closure) (hlock : w.lock_held = false)
    (hres : resolved rt .ep_stat w = some f) :
    ∃ w1, Bracketed rt .ep_stat f [Val_int h] w.heap
        [Event.field (rt.caml_callback_exn f [Val_int h] w.heap).1 0,
         Event.field (rt.caml_callback_exn f [Val_int h] w.heap).1 1,
         Event.field (rt.caml_callback_exn f [Val_int h] w.heap).1 2,
         Event.int64_val (Field (rt.caml_callback_exn f [Val_int h] w.heap).1 2)] w w1 ∧
      (∀ b ss n, (rt.caml_callback_exn f [Val_int h] w.heap).1 =
          .tuple [Cell.int b, Cell.int ss, Cell.int64 n] →
        w1.errno = w.errno ∧
        mirage_block_stat rt h buf w = .returned (0,
          { bzero with
              st_mode := toUnsigned 16 ((S_IFREG ||| S_IROTH ||| S_IRGRP ||| S_IRUSR |||
                (if toSigned 32 b != 0 then (S_IWOTH ||| S_IWGRP ||| S_IWUSR) else 0) : Nat) : Int)
              st_nlink := 1
              st_size := toSigned 64 (toUnsigned 64
                (toUnsigned 32 (toSigned 32 ss) * toUnsigned 64 (toSigned 64 n)))
              st_blocks := toSigned 64 (toUnsigned 64 (toSigned 64 n))
              st_blksize := toSigned 32 (toUnsigned 32 (toSigned 32 ss)) }) w1) := by
  obtain ⟨w1, he, hc, -, hok⟩ := ocaml_mirage_block_stat_crossing rt
    { w with lock_held := true, trace := w.trace ++ [Event.acquire] } h buf 1 f hres
  simp only at he hok
  refine ⟨caml_release_runtime_system w1, Bracketed.of_crossing hc rfl rfl rfl rfl, ?_⟩
  intro b ss n hr
  refine ⟨by simp [caml_release_runtime_system, he], ?_⟩
  simp [mirage_block_stat, caml_acquire_runtime_system, hlock, Outcome.bind, hok b ss n hr]

/-- On an exception result the `Int64_val` of line 91 goes through a wild
address: `mirage_block_stat` never reaches the test of line 92, let alone the
release; it ends inside the crossing, the lock held and `errno` untouched. -/
theorem mirage_block_stat_raise {σ : Type} (rt : Runtime σ) (w : World σ) (h : Int)
    (buf : Stat) (f : Closure) (hlock : w.lock_held = false)
    (hres : resolved rt .ep_stat w = some f)
    (hx : Is_exception_result (rt.caml_callback_exn f [Val_int h] w.heap).1 = true) :
    ∃ w1, mirage_block_stat rt h buf w = .undefined w1 ∧ w1.lock_held = true ∧
      w1.errno = w.errno ∧ Event.release ∉ w1.trace.drop w.trace.length := by
  obtain ⟨w1, he, hc, hund, -⟩ := ocaml_mirage_block_stat_crossing rt
    { w with lock_held := true, trace := w.trace ++ [Event.acquire] } h buf 1 f hres
  simp only at he hund
  have hnone : Int64_val (Field (rt.caml_callback_exn f [Val_int h] w.heap).1 2) = none := by
    cases hr : (rt.caml_callback_exn f [Val_int h] w.heap).1 with
    | cell c => rw [hr] at hx; cases hx
    | tuple fs => rw [hr] at hx; cases hx
    | exception_result e => rfl
  obtain ⟨hl, -, ⟨pre, htr, hpre⟩, -, -⟩ := hc
  simp only at hl htr
  refine ⟨w1, ?_, hl, he, ?_⟩
  · simp [mirage_block_stat, caml_acquire_runtime_system, hlock, Outcome.bind, hund hnone]
  · rw [htr]
    simp only [List.append_assoc, List.drop_left]
    intro hmem
    simp only [List.mem_append, List.mem_cons, List.mem_singleton, List.not_mem_nil,
      or_false] at hmem
    rcases hmem with h1 | h1 | h1 | h1
    · cases h1
    · have := (hpre _ h1).1
      simp [Event.isLock] at this
    · cases h1
    · rcases h1 with h1 | h1 | h1 | h1 <;> cases h1

theorem mirage_block_close_spec {σ : Type} (rt : Runtime σ) (w : World σ) (handle : Int)
    (f : Closure) (hlock : w.lock_held = false)
    (hres : resolved rt .ep_close w = some f) :
    ∃ w1, Bracketed rt .ep_close f [Val_int handle] w.heap [] w w1 ∧
      mirage_block_close rt handle w =
        .returned (if Is_exception_result (rt.caml_callback_exn f [Val_int handle] w.heap).1
          then 1 else 0) w1 ∧
      w1.errno = w.errno := by
  obtain ⟨w1, hrun, he, hc⟩ := ocaml_mirage_block_close_crossing rt
    { w with lock_held := true, trace := w.trace ++ [Event.acquire] } handle 1 f hres
  simp only at hrun he
  refine ⟨caml_release_runtime_system w1, Bracketed.of_crossing hc rfl rfl rfl rfl, ?_, ?_⟩
  · simp [mirage_block_close, caml_acquire_runtime_system, hlock, Outcome.bind, hrun]
  · simp [caml_release_runtime_system, he]

theorem mirage_block_flush_spec {σ : Type} (rt : Runtime σ) (w : World σ) (handle : Int)
    (f : Closure) (hlock : w.lock_held = false)
    (hres : resolved rt .ep_flush w = some f) :
    ∃ w1, Bracketed rt .ep_flush f [Val_int handle] w.heap [] w w1 ∧
      mirage_block_flush rt handle w =
        .returned (if Is_exception_result (rt.caml_callback_exn f [Val_int handle] w.heap).1
          then 1 else 0) w1 ∧
      w1.errno = (if Is_exception_result (rt.caml_callback_exn f [Val_int handle] w.heap).1
          then EINVAL else w.errno) := by
  obtain ⟨w1, hrun, he, hc⟩ := ocaml_mirage_block_flush_crossing rt
    { w with lock_held := true, trace := w.trace ++ [Event.acquire] } handle 1 f hres
  simp only at hrun he
  refine ⟨caml_release_runtime_system w1, Bracketed.of_crossing hc rfl rfl rfl rfl, ?_, ?_⟩
  · simp [mirage_block_flush, caml_acquire_runtime_system, hlock, Outcome.bind, hrun]
  · simp [caml_release_runtime_system, he]

/-! ## Conversions between C integer types -/

theorem toSigned_32_of_range (x : Int) (h0 : -2147483648 ≤ x) (h1 : x < 2147483648) :
    toSigned 32 x = x := by
  unfold toSigned
  norm_num
  split_ifs <;> omega

theorem toSigned_64_of_range (x : Int) (h0 : -9223372036854775808 ≤ x)
    (h1 : x < 9223372036854775808) : toSigned 64 x = x := by
  unfold toSigned
  norm_num
  split_ifs <;> omega

theorem toUnsigned_32_of_range (x : Int) (h0 : 0 ≤ x) (h1 : x < 4294967296) :
    toUnsigned 32 x = x := by
  unfold toUnsigned
  norm_num
  omega

theorem toUnsigned_64_of_range (x : Int) (h0 : 0 ≤ x) (h1 : x < 18446744073709551616) :
    toUnsigned 64 x = x := by
  unfold toUnsigned
  norm_num
  omega

theorem toUnsigned_32_toSigned_32 (x : Int) : toUnsigned 32 (toSigned 32 x) = toUnsigned 32 x := by
  unfold toUnsigned toSigned
  norm_num
  split_ifs <;> omega

theorem toSigned_32_toUnsigned_32 (x : Int) : toSigned 32 (toUnsigned 32 x) = toSigned 32 x := by
  unfold toUnsigned toSigned
  norm_num

theorem toUnsigned_64_toSigned_64 (x : Int) : toUnsigned 64 (toSigned 64 x) = toUnsigned 64 x := by
  unfold toUnsigned toSigned
  norm_num
  split_ifs <;> omega

theorem toSigned_64_toUnsigned_64 (x : Int) : toSigned 64 (toUnsigned 64 x) = toSigned 64 x := by
  unfold toUnsigned toSigned
  norm_num

theorem toSigned_32_le (x : Int) (h0 : 0 ≤ x) : toSigned 32 x ≤ x := by
  unfold toSigned
  norm_num
  split_ifs <;> omega

theorem toUnsigned_64_nonneg (x : Int) : 0 ≤ toUnsigned 64 x ∧ toUnsigned 64 x < 18446744073709551616 := by
  unfold toUnsigned
  norm_num
  omega

theorem mode_bits (read_write : Bool) :
    toUnsigned 16 ((S_IFREG ||| S_IROTH ||| S_IRGRP ||| S_IRUSR |||
      (if toSigned 32 (if read_write then 1 else 0) != 0
        then (S_IWOTH ||| S_IWGRP ||| S_IWUSR) else 0) : Nat) : Int) =
    ((S_IFREG + S_IRUSR + S_IRGRP + S_IROTH +
      (if read_write then S_IWUSR + S_IWGRP + S_IWOTH else 0) : Nat) : Int) := by
  cases read_write <;> decide

/-! ## What the vectored operations hand to the entry point -/

/-- C1, evaluated where it fails: `stat` of the unknown handle 4 raises on the
test runtime, and `mirage_block_stat` does not return -1 with `EINVAL`: the
`Int64_val` of line 91 dereferences a field of the exception result, and the
stub ends there, undefined, the lock held, `errno` still 0 and no `release`
logged.  The three sibling stubs, which decode the result only after the
exception test, do what the claim says on a raising entry point: -1 and
`EINVAL`. -/
theorem C1_stat_raise_does_not_return :
    Is_exception_result (testdisk.caml_callback_exn 1 [Val_int 4] ()).1 = true ∧
    (∃ w1, mirage_block_stat testdisk 4 bzero fresh = .undefined w1 ∧ w1.lock_held = true ∧
      w1.errno = 0 ∧ Event.release ∉ w1.trace) ∧
    ((mirage_block_open testdisk "bogus://nope" 0 fresh).ret? = some (-1) ∧
      (mirage_block_open testdisk "bogus://nope" 0 fresh).world.errno = EINVAL) ∧
    ((mirage_block_preadv testdisk 9 (fun _ => ⟨4096, 512⟩) 1 0 fresh).ret? = some (-1) ∧
      (mirage_block_preadv testdisk 9 (fun _ => ⟨4096, 512⟩) 1 0 fresh).world.errno = EINVAL) ∧
    ((mirage_block_pwritev testdisk 9 (fun _ => ⟨4096, 512⟩) 1 0 fresh).ret? = some (-1) ∧
      (mirage_block_pwritev testdisk 9 (fun _ => ⟨4096, 512⟩) 1 0 fresh).world.errno =
        EINVAL) := by
  refine ⟨by decide, ?_, by decide, by decide, by decide⟩
  obtain ⟨w1, hrun, hl, he, hrel⟩ :=
    mirage_block_stat_raise testdisk fresh 4 bzero 1 rfl (by decide) (by decide)
  exact ⟨w1, hrun, hl, he, hrel⟩

/-! ## C2: normal returns -/

/-- C3, as stated, fails: for sector_size = 512 and size_in_sectors = 2^55
(both in range) the product is 2^64, and the record holds `st_size = 0`. -/
theorem C3_counterexample :
    (0 ≤ (512 : Int) ∧ (512 : Int) < 4294967296) ∧
    (0 ≤ (36028797018963968 : Int) ∧ (36028797018963968 : Int) < 18446744073709551616) ∧
    ((mirage_block_stat
        (answering (.tuple [Cell.int 1, Cell.int 512, Cell.int64 36028797018963968]))
        3 bzero fresh).ret?.map fun r => (r.1, r.2.st_size)) = some (0, 0) ∧
    (512 : Int) * 36028797018963968 ≠ 0 := by
  decide

/-- C3, amended: on a successful `mirage_block_stat` where the runtime returns
`(b, ss, n)` with `ss` an unsigned 32-bit value, and with size_in_sectors the
unsigned 64-bit reading of the `Int64` `n`, `st_size` is the product reduced
modulo 2^64 and read as a signed 64-bit `off_t`; it is the mathematical
product exactly whenever the product is below 2^63, so nothing is lost below
64 bits. -/
theorem C3_st_size_is_product_in_64_bits {σ : Type} (rt : Runtime σ) (w : World σ) (h : Int)
    (buf : Stat) (f : Closure) (b ss n : Int) (hlock : w.lock_held = false)
    (hres : resolved rt .ep_stat w = some f)
    (hr : (rt.caml_callback_exn f [Val_int h] w.heap).1 =
      .tuple [Cell.int b, Cell.int ss, Cell.int64 n])
    (hss0 : 0 ≤ ss) (hss1 : ss < 4294967296) :
    ∃ st w1, mirage_block_stat rt h buf w = .returned (0, st) w1 ∧
      st.st_size = toSigned 64 (toUnsigned 64 (ss * toUnsigned 64 n)) ∧
      (ss * toUnsigned 64 n < 9223372036854775808 → st.st_size = ss * toUnsigned 64 n) := by
  obtain ⟨w1, -, hok⟩ := mirage_block_stat_spec rt w h buf f hlock hres
  obtain ⟨-, hrun⟩ := hok b ss n hr
  have hsz : toSigned 64 (toUnsigned 64
      (toUnsigned 32 (toSigned 32 ss) * toUnsigned 64 (toSigned 64 n))) =
      toSigned 64 (toUnsigned 64 (ss * toUnsigned 64 n)) := by
    rw [toUnsigned_32_toSigned_32, toUnsigned_32_of_range ss hss0 hss1,
      toUnsigned_64_toSigned_64]
  refine ⟨_, w1, hrun, hsz, ?_⟩
  intro hlt
  have hu := toUnsigned_64_nonneg n
  have hp : 0 ≤ ss * toUnsigned 64 n := Int.mul_nonneg hss0 hu.1
  show toSigned 64 (toUnsigned 64
      (toUnsigned 32 (toSigned 32 ss) * toUnsigned 64 (toSigned 64 n))) = _
  rw [hsz, toSigned_64_toUnsigned_64, toSigned_64_of_range _ (by omega) hlt]

/-- C3 (amended) on the test runtime: sector_size = 512 and size_in_sectors =
100 give `st_size = 51200`. -/
theorem C3_st_size_is_product_in_64_bits_witness :
    ∃ st w1, mirage_block_stat testdisk 3 bzero fresh = .returned (0, st) w1 ∧
      st.st_size = 51200 := by
  obtain ⟨st, w1, h1, -, h3⟩ := C3_st_size_is_product_in_64_bits testdisk fresh 3 bzero 1
    1 512 100 rfl (by decide) (by decide) (by decide) (by decide)
  exact ⟨st, w1, h1, h3 (by decide)⟩

/-- C4, as stated, fails: when the runtime returns (true, 2147483648, 100), a
sector size that is an unsigned 32-bit value, the record holds
`st_blksize = -2147483648`, because `blksize_t` is a signed 32-bit integer;
and when it returns (true, 4294967808, 100), that is 2^32 + 512, the
`(unsigned int)` conversion on line 90 leaves 512 and the record holds
`st_blksize = 512`. -/
theorem C4_counterexample :
    ((mirage_block_stat
        (answering (.tuple [Cell.int 1, Cell.int 2147483648, Cell.int64 100]))
        3 bzero fresh).ret?.map fun r => (r.1, r.2.st_blksize)) = some (0, -2147483648) ∧
    (-2147483648 : Int) ≠ 2147483648 ∧
    ((mirage_block_stat
        (answering (.tuple [Cell.int 1, Cell.int 4294967808, Cell.int64 100]))
        3 bzero fresh).ret?.map fun r => (r.1, r.2.st_blksize)) = some (0, 512) ∧
    (512 : Int) ≠ 4294967808 := by
  decide

/-- C4, amended: on a successful `mirage_block_stat` where the runtime returns
`(read_write, ss, n)`, whatever the record held before: `st_mode` is the
regular-file bit plus read permission for user, group and other, plus write
permission for the three exactly when `read_write` is true; `st_blocks` is `n`
as a signed 64-bit `blkcnt_t`, which is `n` itself for every `Int64`;
`st_blksize` is `ss` as a signed 32-bit `blksize_t`, which is `ss` itself
whenever `0 ≤ ss < 2^31`; `st_nlink` is 1; and `st_dev`, `st_ino`, `st_uid`,
`st_gid`, `st_rdev`, the time fields, `st_flags` and `st_gen` are zero. -/
theorem C4_stat_record_fields {σ : Type} (rt : Runtime σ) (w : World σ) (h : Int)
    (buf : Stat) (f : Closure) (read_write : Bool) (ss n : Int)
    (hlock : w.lock_held = false) (hres : resolved rt .ep_stat w = some f)
    (hr : (rt.caml_callback_exn f [Val_int h] w.heap).1 =
      .tuple [Cell.int (if read_write then 1 else 0), Cell.int ss, Cell.int64 n]) :
    ∃ st w1, mirage_block_stat rt h buf w = .returned (0, st) w1 ∧
      st.st_mode = ((S_IFREG + S_IRUSR + S_IRGRP + S_IROTH +
        (if read_write then S_IWUSR + S_IWGRP + S_IWOTH else 0) : Nat) : Int) ∧
      st.st_blocks = toSigned 64 n ∧
      (-9223372036854775808 ≤ n → n < 9223372036854775808 → st.st_blocks = n) ∧
      st.st_blksize = toSigned 32 ss ∧
      (0 ≤ ss → ss < 2147483648 → st.st_blksize = ss) ∧
      st.st_nlink = 1 ∧
      st.st_dev = 0 ∧ st.st_ino = 0 ∧ st.st_uid = 0 ∧ st.st_gid = 0 ∧ st.st_rdev = 0 ∧
      st.st_atime = 0 ∧ st.st_atimensec = 0 ∧ st.st_mtime = 0 ∧ st.st_mtimensec = 0 ∧
      st.st_ctime = 0 ∧ st.st_ctimensec = 0 ∧ st.st_birthtime = 0 ∧ st.st_birthtimensec = 0 ∧
      st.st_flags = 0 ∧ st.st_gen = 0 := by
  obtain ⟨w1, -, hok⟩ := mirage_block_stat_spec rt w h buf f hlock hres
  obtain ⟨-, hrun⟩ := hok _ ss n hr
  have hblocks : toSigned 64 (toUnsigned 64 (toSigned 64 n)) = toSigned 64 n := by
    rw [toUnsigned_64_toSigned_64, toSigned_64_toUnsigned_64]
  have hblk : toSigned 32 (toUnsigned 32 (toSigned 32 ss)) = toSigned 32 ss := by
    rw [toUnsigned_32_toSigned_32, toSigned_32_toUnsigned_32]
  refine ⟨_, w1, hrun, ?_, hblocks, ?_, hblk, ?_, rfl, rfl, rfl, rfl, rfl, rfl, rfl, rfl, rfl,
    rfl, rfl, rfl, rfl, rfl, rfl, rfl⟩
  · exact mode_bits read_write
  · intro h0 h1
    show toSigned 64 (toUnsigned 64 (toSigned 64 n)) = n
    rw [hblocks, toSigned_64_of_range n h0 h1]
  · intro h0 h1
    show toSigned 32 (toUnsigned 32 (toSigned 32 ss)) = ss
    rw [hblk, toSigned_32_of_range ss (by omega) h1]

/-- C4 (amended) on the test runtime, starting from a record full of sevens:
a read-write device of 100 sectors of 512 bytes gives mode `0100666`, 100
blocks of 512 bytes, and zero owner, inode and time fields. -/
theorem C4_stat_record_fields_witness :
    ∃ st w1, mirage_block_stat testdisk 3
        { bzero with st_dev := 7, st_ino := 7, st_uid := 7, st_mtime := 7, st_gen := 7 }
        fresh = .returned (0, st) w1 ∧
      st.st_mode = 33206 ∧ st.st_blocks = 100 ∧ st.st_blksize = 512 ∧
      st.st_dev = 0 ∧ st.st_ino = 0 ∧ st.st_uid = 0 ∧ st.st_mtime = 0 ∧ st.st_gen = 0 := by
  obtain ⟨st, w1, h1, hmode, -, hblocks, -, hblk, -, hdev, hino, huid, -, -, -, -, hmt, -, -, -,
      -, -, -, hgen⟩ :=
    C4_stat_record_fields testdisk fresh 3
      { bzero with st_dev := 7, st_ino := 7, st_uid := 7, st_mtime := 7, st_gen := 7 }
      1 true 512 100 rfl (by decide) (by decide)
  exact ⟨st, w1, h1, hmode, hblocks (by decide) (by decide), hblk (by decide) (by decide),
    hdev, hino, huid, hmt, hgen⟩

/-! ## C5: the premature loads of `stat` -/

/-- C5, evaluated where it fails: `stat` of the unknown handle 4 raises on the
test runtime, and the stub still performs `Field(result, 0)`,
`Field(result, 1)`, `Field(result, 2)` and the `Int64_val` of that last word
on the exception result (source lines 89 to 91), before the test of
`Is_exception_result` on line 92 is reached.  The `Int64_val` goes through a
wild address: the trace stops there, with no `release`, and the stub ends
undefined with the lock held instead of returning. -/
theorem C5_stat_loads_fields_of_exception_result :
    Is_exception_result (testdisk.caml_callback_exn 1 [Val_int 4] ()).1 = true ∧
    ∃ w1, mirage_block_stat testdisk 4 bzero fresh = .undefined w1 ∧
      w1.lock_held = true ∧
      w1.trace =
        [Event.acquire,
         Event.named_value "mirage_block_stat",
         Event.callback 1 [Val_int 4] (.exception_result (.string "Invalid_argument")),
         Event.field (.exception_result (.string "Invalid_argument")) 0,
         Event.field (.exception_result (.string "Invalid_argument")) 1,
         Event.field (.exception_result (.string "Invalid_argument")) 2,
         Event.int64_val none] := by
  refine ⟨by decide, ?_⟩
  obtain ⟨w1, hrun, hl, -, -⟩ :=
    mirage_block_stat_raise testdisk fresh 4 bzero 1 rfl (by decide) (by decide)
  refine ⟨w1, hrun, hl, ?_⟩
  have hw : w1 = (mirage_block_stat testdisk 4 bzero fresh).world := by
    rw [hrun]
    rfl
  rw [hw]
  decide

/-! ## C6 and C7: close and flush -/

/-- C6: for every handle, `mirage_block_close` returns 0 when the close entry
point returns normally and 1 when it raises, and in both cases `errno` after
the call is `errno` before the call.  The entry point is invoked exactly when
the caller does not already hold the lock and the name is registered. -/
theorem C6_close_flag_and_errno {σ : Type} (rt : Runtime σ) (w : World σ) (handle : Int)
    (f : Closure) (hlock : w.lock_held = false)
    (hres : resolved rt .ep_close w = some f) :
    ∃ w1, mirage_block_close rt handle w =
        .returned (if Is_exception_result (rt.caml_callback_exn f [Val_int handle] w.heap).1
          then 1 else 0) w1 ∧
      w1.errno = w.errno := by
  obtain ⟨w1, -, hrun, he⟩ := mirage_block_close_spec rt w handle f hlock hres
  exact ⟨w1, hrun, he⟩

/-- C6 on the test runtime, from `errno = 0`: closing handle 3 gives 0, closing
the unknown handle 9 gives 1, and `errno` is still 0 both times. -/
theorem C6_close_flag_and_errno_witness :
    fresh.lock_held = false ∧ resolved testdisk .ep_close fresh = some 2 ∧
    (∃ w1, mirage_block_close testdisk 3 fresh = .returned 0 w1 ∧ w1.errno = 0) ∧
    (∃ w1, mirage_block_close testdisk 9 fresh = .returned 1 w1 ∧ w1.errno = 0) :=
  ⟨rfl, by decide,
   C6_close_flag_and_errno testdisk fresh 3 2 rfl (by decide),
   C6_close_flag_and_errno testdisk fresh 9 2 rfl (by decide)⟩

/-- C7: for every handle, `mirage_block_flush` returns 0 and leaves `errno`
alone when the flush entry point returns normally, and returns 1 with
`errno = EINVAL` when it raises.  Nothing else changes: the lock is free as
before, the managed state is what the entry point left, and the cache of no
other entry point is touched.  The entry point is invoked exactly when the
caller does not already hold the lock and the name is registered. -/
theorem C7_flush_flag_and_errno {σ : Type} (rt : Runtime σ) (w : World σ) (handle : Int)
    (f : Closure) (hlock : w.lock_held = false)
    (hres : resolved rt .ep_flush w = some f) :
    ∃ w1, mirage_block_flush rt handle w =
        .returned (if Is_exception_result (rt.caml_callback_exn f [Val_int handle] w.heap).1
          then 1 else 0) w1 ∧
      w1.errno = (if Is_exception_result (rt.caml_callback_exn f [Val_int handle] w.heap).1
          then EINVAL else w.errno) ∧
      w1.lock_held = w.lock_held ∧
      w1.heap = (rt.caml_callback_exn f [Val_int handle] w.heap).2 ∧
      (∀ ep, ep ≠ EntryPoint.ep_flush → w1.fn ep = w.fn ep) := by
  obtain ⟨w1, hb, hrun, he⟩ := mirage_block_flush_spec rt w handle f hlock hres
  exact ⟨w1, hrun, he, by rw [hb.lock_free, hlock], hb.heap_eq, hb.fn_frame⟩

/-- C7 on the test runtime, from `errno = 0`: flushing handle 3 gives 0 with
`errno` still 0, flushing the unknown handle 9 gives 1 with `errno = EINVAL`. -/
theorem C7_flush_flag_and_errno_witness :
    fresh.lock_held = false ∧ resolved testdisk .ep_flush fresh = some 5 ∧
    (∃ w1, mirage_block_flush testdisk 3 fresh = .returned 0 w1 ∧ w1.errno = 0) ∧
    (∃ w1, mirage_block_flush testdisk 9 fresh = .returned 1 w1 ∧ w1.errno = EINVAL) := by
  refine ⟨rfl, by decide, ?_, ?_⟩
  · obtain ⟨w1, h1, h2, -⟩ := C7_flush_flag_and_errno testdisk fresh 3 5 rfl (by decide)
    exact ⟨w1, h1, h2⟩
  · obtain ⟨w1, h1, h2, -⟩ := C7_flush_flag_and_errno testdisk fresh 9 5 rfl (by decide)
    exact ⟨w1, h1, h2⟩

/-! ## C8: the lock discipline -/

/-- C8, evaluated where it fails: on the exceptional path of `stat` (handle 4
raises on the test runtime) the lock is taken once and never released: the
stub ends undefined inside the crossing, at the `Int64_val` of line 91, and
the events it logged replay to a lock that is still held, with one `acquire`
and no `release`.  The sibling `open` on its exceptional path does what the
claim says: it returns with the lock free after one `acquire` and one
`release`. -/
theorem C8_stat_raise_keeps_the_lock :
    Is_exception_result (testdisk.caml_callback_exn 1 [Val_int 4] ()).1 = true ∧
    (∃ w1, mirage_block_stat testdisk 4 bzero fresh = .undefined w1 ∧ w1.lock_held = true) ∧
    replay false (mirage_block_stat testdisk 4 bzero fresh).world.trace = some true ∧
    (mirage_block_stat testdisk 4 bzero fresh).world.trace.count Event.acquire = 1 ∧
    (mirage_block_stat testdisk 4 bzero fresh).world.trace.count Event.release = 0 ∧
    (mirage_block_open testdisk "bogus://nope" 0 fresh).ret? = some (-1) ∧
    (mirage_block_open testdisk "bogus://nope" 0 fresh).world.lock_held = false ∧
    replay false (mirage_block_open testdisk "bogus://nope" 0 fresh).world.trace = some false ∧
    (mirage_block_open testdisk "bogus://nope" 0 fresh).world.trace.count Event.acquire = 1 ∧
    (mirage_block_open testdisk "bogus://nope" 0 fresh).world.trace.count Event.release = 1 := by
  refine ⟨by decide, ?_, by decide, by decide, by decide, by decide, by decide, by decide,
    by decide, by decide⟩
  obtain ⟨w1, hrun, hl, -, -⟩ :=
    mirage_block_stat_raise testdisk fresh 4 bzero 1 rfl (by decide) (by decide)
  exact ⟨w1, hrun, hl⟩

/-! ## C9: the byte count -/

/-- C9, as stated, fails: the runtime answers a `preadv` of one 512-byte
buffer normally with 1024, and `mirage_block_preadv` returns 1024, more than
the 512 bytes requested. -/
theorem C9_counterexample :
    Is_exception_result ((answering (.cell (.int 1024))).caml_callback_exn 0
      [Val_int 3, .tuple [.bigarray 12 4096 512], Val_int 0] ()).1 = false ∧
    (mirage_block_preadv (answering (.cell (.int 1024))) 3 (fun _ => ⟨4096, 512⟩) 1 0
      fresh).ret? = some 1024 ∧
    total_len (fun _ => ⟨4096, 512⟩) 1 = 512 ∧
    ¬ ((1024 : Int) ≤ 512) := by
  decide

/-- C9, amended: on a successful `mirage_block_preadv` or
`mirage_block_pwritev` where the entry point returns the integer `n`, the
returned byte count is `n` converted to a C `int`; the stub never compares it
with the vector, and it is at most the sum of the `iov_len` whenever the
runtime's `n` satisfies `0 ≤ n ≤` that sum.  The entry point is reached, with
the tuple `bufs` in the managed state `s1`, when the marshaling loop gets
through (`bufs_of`). -/
theorem C9_byte_count_is_the_runtime_count {σ : Type} (rt : Runtime σ) (w : World σ) (h : Int)
    (iov : Nat → iovec) (iovcnt : Int) (offset : Int) (bufs : List Cell) (s1 : σ)
    (hlock : w.lock_held = false) (h0 : 0 ≤ iovcnt) (h1 : iovcnt < 2147483648)
    (hb : bufs_of rt iov iovcnt.toNat w.heap = some (bufs, s1)) :
    (∀ f n, resolved rt .ep_preadv w = some f →
      (rt.caml_callback_exn f [Val_int h, .tuple bufs, Val_int offset] s1).1 =
        .cell (.int n) →
      ∃ w1, mirage_block_preadv rt h iov iovcnt offset w = .returned (toSigned 32 n) w1 ∧
        (0 ≤ n → n ≤ total_len iov iovcnt.toNat →
          toSigned 32 n ≤ total_len iov iovcnt.toNat)) ∧
    (∀ f n, resolved rt .ep_pwritev w = some f →
      (rt.caml_callback_exn f [Val_int h, .tuple bufs, Val_int offset] s1).1 =
        .cell (.int n) →
      ∃ w1, mirage_block_pwritev rt h iov iovcnt offset w = .returned (toSigned 32 n) w1 ∧
        (0 ≤ n → n ≤ total_len iov iovcnt.toNat →
          toSigned 32 n ≤ total_len iov iovcnt.toNat)) := by
  refine ⟨?_, ?_⟩
  · intro f n hres hr
    obtain ⟨w1, -, -, hok⟩ :=
      mirage_block_preadv_spec rt w h iov iovcnt offset f bufs s1 hlock h0 h1 hb hres
    obtain ⟨-, hrun⟩ := hok (by rw [hr]; rfl)
    exact ⟨w1, hrun _ (by rw [hr]; rfl), fun hn hle => le_trans (toSigned_32_le n hn) hle⟩
  · intro f n hres hr
    obtain ⟨w1, -, -, hok⟩ :=
      mirage_block_pwritev_spec rt w h iov iovcnt offset f bufs s1 hlock h0 h1 hb hres
    obtain ⟨-, hrun⟩ := hok (by rw [hr]; rfl)
    exact ⟨w1, hrun _ (by rw [hr]; rfl), fun hn hle => le_trans (toSigned_32_le n hn) hle⟩

/-- C9 (amended) on the test runtime, which transfers every byte offered: two
512-byte buffers give 1024 for both operations, which is the sum requested. -/
theorem C9_byte_count_is_the_runtime_count_witness :
    fresh.lock_held = false ∧
    (∃ w1, mirage_block_preadv testdisk 3 (fun _ => ⟨4096, 512⟩) 2 0 fresh =
      .returned 1024 w1) ∧
    (∃ w1, mirage_block_pwritev testdisk 3 (fun _ => ⟨4096, 512⟩) 2 0 fresh =
      .returned 1024 w1) ∧
    (1024 : Int) ≤ total_len (fun _ => ⟨4096, 512⟩) 2 := by
  refine ⟨rfl, ?_, ?_, by decide⟩
  · obtain ⟨w1, hrun, -⟩ := (C9_byte_count_is_the_runtime_count testdisk fresh 3
      (fun _ => ⟨4096, 512⟩) 2 0 [.bigarray 12 4096 512, .bigarray 12 4096 512] ()
      rfl (by decide) (by decide) (by decide)).1 3 1024 (by decide) (by decide)
    exact ⟨w1, hrun⟩
  · obtain ⟨w1, hrun, -⟩ := (C9_byte_count_is_the_runtime_count testdisk fresh 3
      (fun _ => ⟨4096, 512⟩) 2 0 [.bigarray 12 4096 512, .bigarray 12 4096 512] ()
      rfl (by decide) (by decide) (by decide)).2 4 1024 (by decide) (by decide)
    exact ⟨w1, hrun⟩

/-! ## C10: what the vectored operations hand to the entry point -/

end MirageBlock
